import Mathlib

/-!
# Attendance shift/break state machine of the QR attendance server

A shallow embedding of the attendance-transition logic of `src/server.js`
(routes POST /api/checkin, /api/checkout, /api/attendance/break/start,
/api/attendance/break/end) over the `attendance` table declared in
`src/setup-db.js`.

Modelling conventions:
* Timestamps are naturals (milliseconds since the epoch); calendar dates are
  naturals (day identifiers).  Each handler invocation happens at a single
  instant `now`, covering both the SQL NOW() and the JS Date reads of the
  handler body.
* A break entry is a parsed JSON object with optional `start`, `end` and
  `auto_ended` fields; JS truthiness of the ISO-string timestamp fields is
  presence (`Option.isSome`), since the system only ever stores non-empty
  ISO strings there.
* The persisted `breaks` column is modelled by `StoredBreaks`: SQL NULL,
  the empty string, an unparseable string, parseable non-array JSON, or a
  JSON array of entries.  `parseBreaks` is the handlers' shared recovery
  logic (server.js lines 436-443, 494-502, 541-549).
* The table is a list of rows; `SELECT ... WHERE staff_id = ? AND
  check_out IS NULL ORDER BY check_in DESC LIMIT 1` becomes `findOpen`,
  and `UPDATE ... WHERE id = ?` becomes `updateById`.
-/

namespace QRAtt

/-- A parsed break entry: JSON object with optional `start`, `end`,
`auto_ended` fields (server.js stores `{start}`, `{start, end}` or
`{start, end, auto_ended}`; arbitrary JSON objects can also occur in the
column). -/
structure BreakEntry where
  start : Option Nat
  end_ : Option Nat
  auto_ended : Option Bool
deriving DecidableEq

/-- The raw persisted value of the `breaks` column (`breaks JSON` in
`setup-db.js`): NULL, empty string, a string that fails JSON.parse, JSON
that is not an array, or a JSON array of break entries. -/
inductive StoredBreaks where
  | nullVal : StoredBreaks
  | emptyStr : StoredBreaks
  | badJson : String → StoredBreaks
  | nonArray : StoredBreaks
  | arr : List BreakEntry → StoredBreaks
deriving DecidableEq

/-- One row of the `attendance` table (`setup-db.js` lines 37-51). -/
structure Attendance where
  id : Nat
  staff_id : String
  date : Nat
  check_in : Nat
  check_out : Option Nat
  breaks : StoredBreaks
deriving DecidableEq

/-- The breaks-recovery logic shared by the three handlers
(server.js 436-443 / 494-502 / 541-549): a missing, empty, unparseable or
non-array value is treated as the empty array. -/
def parseBreaks : StoredBreaks → List BreakEntry
  | .arr l => l
  | _ => []

/-- Whether a stored breaks value is missing, empty or not parseable as a
JSON array (every variant other than a JSON array). -/
def malformedStored : StoredBreaks → Bool
  | .arr _ => false
  | _ => true

/-- The JS predicate `b.start && !b.end` used by checkout's map,
`hasActiveBreak` and `findIndex` (server.js 445, 503, 550): the entry has a
(truthy) start and no (truthy) end. -/
def isActive (b : BreakEntry) : Bool :=
  b.start.isSome && b.end_.isNone

/-- Checkout's per-entry transform (server.js 444-450): an active entry
becomes `{start, end: now, auto_ended: true}`; any other entry is returned
unchanged. -/
def autoCloseEntry (now : Nat) (b : BreakEntry) : BreakEntry :=
  if isActive b then ⟨b.start, some now, some true⟩ else b

/-- JS `Array.prototype.findIndex` restricted to break entries, returning
`none` for -1 (server.js 550). -/
def findIndex (p : BreakEntry → Bool) : List BreakEntry → Option Nat
  | [] => none
  | b :: bs => if p b then some 0 else (findIndex p bs).map (· + 1)

/-- The error outcomes of the four handlers (their 400 responses). -/
inductive ApiError where
  | alreadyCheckedIn : ApiError
  | noOpenShift : ApiError
  | alreadyOnBreak : ApiError
  | noActiveBreak : ApiError
deriving DecidableEq

/-- The attendance table. -/
abbrev AttTable := List Attendance

/-- `SELECT COALESCE(MAX(id), 0)` over the whole table (server.js 402). -/
def maxId (st : AttTable) : Nat :=
  st.foldr (fun r m => max r.id m) 0

/-- The rows matching `staff_id = sid AND check_out IS NULL`. -/
def openRecs (st : AttTable) (sid : String) : AttTable :=
  st.filter (fun r => r.staff_id == sid && r.check_out.isNone)

/-- `ORDER BY check_in DESC LIMIT 1`: a row of maximal `check_in`. -/
def maxRecent : AttTable → Option Attendance
  | [] => none
  | r :: rs =>
    match maxRecent rs with
    | none => some r
    | some m => if m.check_in > r.check_in then some m else some r

/-- The open-record lookup shared by checkout, break start and break end
(server.js 425-428, 485-488, 532-535):
`SELECT * FROM attendance WHERE staff_id = ? AND check_out IS NULL
 ORDER BY check_in DESC LIMIT 1`. -/
def findOpen (st : AttTable) (sid : String) : Option Attendance :=
  maxRecent (openRecs st sid)

/-- `UPDATE attendance SET ... WHERE id = ?`: apply `g` to every row whose
id matches. -/
def updateById (st : AttTable) (i : Nat) (g : Attendance → Attendance) :
    AttTable :=
  st.map (fun r => if r.id == i then g r else r)

/-- POST /api/checkin (server.js 389-416): reject when a row for
(staffId, today) exists — open or closed — otherwise insert
`(MAX(id)+1, staffId, today, NOW())`; the `breaks` column is omitted from
the INSERT, so it takes its NULL default. -/
def checkin (sid : String) (today now : Nat) (st : AttTable) :
    Except ApiError AttTable :=
  if st.any (fun r => r.staff_id == sid && r.date == today) then
    .error .alreadyCheckedIn
  else
    .ok (st ++ [⟨maxId st + 1, sid, today, now, none, .nullVal⟩])

/-- POST /api/checkout (server.js 418-472): find the most recent open row
for the staff member; auto-close every active break entry; set
`check_out = now` and persist the transformed breaks; report whether any
entry was auto-closed. -/
def checkout (sid : String) (now : Nat) (st : AttTable) :
    Except ApiError (AttTable × Bool) :=
  match findOpen st sid with
  | none => .error .noOpenShift
  | some record =>
    let bs := parseBreaks record.breaks
    let bs2 := bs.map (autoCloseEntry now)
    let flag := bs.any isActive
    .ok (updateById st record.id
          (fun r => { r with check_out := some now, breaks := .arr bs2 }),
         flag)

/-- POST /api/attendance/break/start (server.js 474-519): find the most
recent open row; reject when an active break entry exists; otherwise append
`{start: now}` and persist; the response carries `break_start = now`. -/
def startBreak (sid : String) (now : Nat) (st : AttTable) :
    Except ApiError (AttTable × Nat) :=
  match findOpen st sid with
  | none => .error .noOpenShift
  | some record =>
    let bs := parseBreaks record.breaks
    if bs.any isActive then .error .alreadyOnBreak
    else
      .ok (updateById st record.id
            (fun r => { r with breaks := .arr (bs ++ [⟨some now, none, none⟩]) }),
           now)

/-- POST /api/attendance/break/end (server.js 521-574): find the most
recent open row; locate the first active break entry; set its `end = now`
and persist; the response carries
`break_duration_minutes = Math.floor((end - start) / 60000)`. -/
def endBreak (sid : String) (now : Nat) (st : AttTable) :
    Except ApiError (AttTable × Int) :=
  match findOpen st sid with
  | none => .error .noOpenShift
  | some record =>
    let bs := parseBreaks record.breaks
    match findIndex isActive bs with
    | none => .error .noActiveBreak
    | some i =>
      let b := (bs.get? i).getD ⟨none, none, none⟩
      let bs2 := bs.set i { b with end_ := some now }
      let dur := Int.fdiv ((now : Int) - ((b.start.getD 0 : Nat) : Int)) 60000
      .ok (updateById st record.id (fun r => { r with breaks := .arr bs2 }),
           dur)

/-- One client request: the four mutating operations with the clock values
observed by their handler. -/
inductive Op where
  | checkin (sid : String) (today now : Nat) : Op
  | checkout (sid : String) (now : Nat) : Op
  | startBreak (sid : String) (now : Nat) : Op
  | endBreak (sid : String) (now : Nat) : Op
deriving DecidableEq

/-- Effect of one request on the table: a rejected request writes
nothing (each handler returns its 400 before any UPDATE/INSERT). -/
def step (st : AttTable) : Op → AttTable
  | .checkin sid d n =>
    match checkin sid d n st with
    | .ok st2 => st2
    | .error _ => st
  | .checkout sid n =>
    match checkout sid n st with
    | .ok (st2, _) => st2
    | .error _ => st
  | .startBreak sid n =>
    match startBreak sid n st with
    | .ok (st2, _) => st2
    | .error _ => st
  | .endBreak sid n =>
    match endBreak sid n st with
    | .ok (st2, _) => st2
    | .error _ => st

/-- Run a sequence of requests. -/
def run (st : AttTable) (ops : List Op) : AttTable :=
  ops.foldl step st

/-- Number of open rows (`check_out IS NULL`) for a staff member. -/
def countOpen (sid : String) (st : AttTable) : Nat :=
  st.countP (fun r => r.staff_id == sid && r.check_out.isNone)

/-! ## Helper lemmas -/

theorem mem_openRecs {st : AttTable} {sid : String} {r : Attendance} :
    r ∈ openRecs st sid ↔ r ∈ st ∧ r.staff_id = sid ∧ r.check_out = none := by
  simp [openRecs, List.mem_filter, Option.isNone_iff_eq_none, and_assoc]

theorem openRecs_eq_nil_iff {st : AttTable} {sid : String} :
    openRecs st sid = [] ↔ ∀ r ∈ st, r.staff_id = sid → r.check_out ≠ none := by
  simp only [openRecs, List.filter_eq_nil_iff, Bool.and_eq_true, beq_iff_eq,
    Option.isNone_iff_eq_none, not_and, ne_eq]

theorem maxRecent_cons_ne_none (r : Attendance) (rs : AttTable) :
    maxRecent (r :: rs) ≠ none := by
  cases h : maxRecent rs with
  | none => simp [maxRecent, h]
  | some m =>
    by_cases hgt : m.check_in > r.check_in <;> simp [maxRecent, h, hgt]

theorem maxRecent_eq_none_iff {l : AttTable} : maxRecent l = none ↔ l = [] := by
  cases l with
  | nil => simp [maxRecent]
  | cons r rs => exact iff_of_false (maxRecent_cons_ne_none r rs) (by simp)

theorem maxRecent_mem : ∀ {l : AttTable} {m : Attendance},
    maxRecent l = some m → m ∈ l := by
  intro l
  induction l with
  | nil => intro m h; cases h
  | cons r rs ih =>
    intro m h
    cases hm : maxRecent rs with
    | none =>
      simp only [maxRecent, hm, Option.some.injEq] at h
      subst h
      exact List.mem_cons_self r rs
    | some m2 =>
      by_cases hgt : m2.check_in > r.check_in
      · simp only [maxRecent, hm, if_pos hgt, Option.some.injEq] at h
        subst h
        exact List.mem_cons_of_mem r (ih hm)
      · simp only [maxRecent, hm, if_neg hgt, Option.some.injEq] at h
        subst h
        exact List.mem_cons_self r rs

theorem maxRecent_ge : ∀ {l : AttTable} {m : Attendance},
    maxRecent l = some m → ∀ r ∈ l, r.check_in ≤ m.check_in := by
  intro l
  induction l with
  | nil => intro m h; cases h
  | cons r rs ih =>
    intro m h x hx
    cases hm : maxRecent rs with
    | none =>
      simp only [maxRecent, hm, Option.some.injEq] at h
      subst h
      rcases List.mem_cons.mp hx with rfl | hx
      · exact Nat.le_refl _
      · rw [maxRecent_eq_none_iff.mp hm] at hx
        cases hx
    | some m2 =>
      by_cases hgt : m2.check_in > r.check_in
      · simp only [maxRecent, hm, if_pos hgt, Option.some.injEq] at h
        subst h
        rcases List.mem_cons.mp hx with rfl | hx
        · exact Nat.le_of_lt hgt
        · exact ih hm x hx
      · simp only [maxRecent, hm, if_neg hgt, Option.some.injEq] at h
        subst h
        rcases List.mem_cons.mp hx with rfl | hx
        · exact Nat.le_refl _
        · exact Nat.le_trans (ih hm x hx) (Nat.le_of_not_lt hgt)

theorem findOpen_eq_none_iff {st : AttTable} {sid : String} :
    findOpen st sid = none ↔ ∀ r ∈ st, r.staff_id = sid → r.check_out ≠ none := by
  rw [findOpen, maxRecent_eq_none_iff, openRecs_eq_nil_iff]

theorem findOpen_some_spec {st : AttTable} {sid : String} {record : Attendance}
    (h : findOpen st sid = some record) :
    record ∈ st ∧ record.staff_id = sid ∧ record.check_out = none ∧
      ∀ r ∈ st, r.staff_id = sid → r.check_out = none →
        r.check_in ≤ record.check_in := by
  have hmem := mem_openRecs.mp (maxRecent_mem h)
  have hmax := maxRecent_ge h
  refine ⟨hmem.1, hmem.2.1, hmem.2.2, ?_⟩
  intro r hr hsid hout
  exact hmax r (mem_openRecs.mpr ⟨hr, hsid, hout⟩)

theorem length_updateById (st : AttTable) (i : Nat) (g : Attendance → Attendance) :
    (updateById st i g).length = st.length :=
  List.length_map _ _

theorem get?_updateById (st : AttTable) (i : Nat) (g : Attendance → Attendance)
    (k : Nat) :
    (updateById st i g).get? k =
      (st.get? k).map (fun r => if r.id == i then g r else r) :=
  List.get?_map _ _ _

theorem mem_updateById {st : AttTable} {i : Nat} {g : Attendance → Attendance}
    {r2 : Attendance} :
    r2 ∈ updateById st i g ↔
      ∃ r ∈ st, (if r.id == i then g r else r) = r2 := by
  simp [updateById, List.mem_map]

theorem exists_mem_updateById {st : AttTable} {i : Nat}
    {g : Attendance → Attendance} {P : Attendance → Prop}
    (hg : ∀ r, P r → P (g r)) (h : ∃ r ∈ st, P r) :
    ∃ r ∈ updateById st i g, P r := by
  obtain ⟨r, hr, hP⟩ := h
  refine ⟨if r.id == i then g r else r, mem_updateById.mpr ⟨r, hr, rfl⟩, ?_⟩
  by_cases hc : r.id == i
  · rw [if_pos hc]; exact hg r hP
  · rw [if_neg hc]; exact hP

theorem countP_updateById (st : AttTable) (i : Nat) (g : Attendance → Attendance)
    (p : Attendance → Bool) (hg : ∀ r, p (g r) = p r) :
    (updateById st i g).countP p = st.countP p := by
  rw [updateById, List.countP_map]
  refine List.countP_congr ?_
  intro r _
  by_cases hc : r.id == i <;> simp [Function.comp, hc, hg r]

theorem nodup_get?_inj {α : Type} {l : List α} (hnd : l.Nodup) :
    ∀ {i j : Nat} {a : α}, l.get? i = some a → l.get? j = some a → i = j := by
  induction l with
  | nil => intro i j a hi _; cases i <;> cases hi
  | cons x xs ih =>
    intro i j a hi hj
    rcases List.nodup_cons.mp hnd with ⟨hx, hxs⟩
    cases i with
    | zero =>
      cases j with
      | zero => rfl
      | succ j =>
        simp only [List.get?] at hi hj
        injection hi with hi
        subst hi
        exact absurd (List.get?_mem hj) hx
    | succ i =>
      cases j with
      | zero =>
        simp only [List.get?] at hi hj
        injection hj with hj
        subst hj
        exact absurd (List.get?_mem hi) hx
      | succ j =>
        simp only [List.get?] at hi hj
        exact congrArg Nat.succ (ih hxs hi hj)

theorem findIndex_eq_some_of_unique {p : BreakEntry → Bool} :
    ∀ {bs : List BreakEntry} {i : Nat} {b : BreakEntry},
      bs.get? i = some b → p b = true →
      (∀ j b2, bs.get? j = some b2 → p b2 = true → j = i) →
      findIndex p bs = some i := by
  intro bs
  induction bs with
  | nil => intro i b hget _ _; cases i <;> cases hget
  | cons c cs ih =>
    intro i b hget hp huniq
    by_cases hc : p c = true
    · have h0 : (0 : Nat) = i := huniq 0 c rfl hc
      simp [findIndex, hc, ← h0]
    · cases i with
      | zero =>
        simp only [List.get?] at hget
        injection hget with h
        subst h
        exact absurd hp hc
      | succ i =>
        simp only [List.get?] at hget
        have huniq2 : ∀ j b2, cs.get? j = some b2 → p b2 = true → j = i := by
          intro j b2 hj hp2
          have := huniq (j + 1) b2 (by simpa [List.get?] using hj) hp2
          omega
        have hrec := ih hget hp huniq2
        simp [findIndex, hc, hrec]

theorem checkin_error_of_exists {sid : String} {d n : Nat} {st : AttTable}
    (h : ∃ r ∈ st, r.staff_id = sid ∧ r.date = d) :
    checkin sid d n st = .error .alreadyCheckedIn := by
  unfold checkin
  rw [if_pos]
  rw [List.any_eq_true]
  obtain ⟨r, hr, h1, h2⟩ := h
  exact ⟨r, hr, by simp [h1, h2]⟩

theorem checkin_ok_shape {sid : String} {d n : Nat} {st st2 : AttTable}
    (h : checkin sid d n st = .ok st2) :
    st.any (fun r => r.staff_id == sid && r.date == d) = false ∧
      st2 = st ++ [⟨maxId st + 1, sid, d, n, none, .nullVal⟩] := by
  unfold checkin at h
  by_cases hc : st.any (fun r => r.staff_id == sid && r.date == d)
  · rw [if_pos hc] at h; cases h
  · rw [if_neg hc] at h
    injection h with h
    exact ⟨Bool.not_eq_true _ ▸ hc, h.symm⟩

theorem checkout_ok_shape {sid : String} {now : Nat} {st st2 : AttTable}
    {flag : Bool} (h : checkout sid now st = .ok (st2, flag)) :
    ∃ record, findOpen st sid = some record ∧
      st2 = updateById st record.id
        (fun r => { r with
                    check_out := some now,
                    breaks := .arr ((parseBreaks record.breaks).map
                      (autoCloseEntry now)) }) ∧
      flag = (parseBreaks record.breaks).any isActive := by
  unfold checkout at h
  cases hf : findOpen st sid with
  | none => rw [hf] at h; cases h
  | some record =>
    rw [hf] at h
    simp only at h
    injection h with h
    refine ⟨record, rfl, ?_, ?_⟩
    · exact congrArg Prod.fst h.symm
    · exact congrArg Prod.snd h.symm

theorem startBreak_ok_shape {sid : String} {now : Nat} {st st2 : AttTable}
    {t : Nat} (h : startBreak sid now st = .ok (st2, t)) :
    ∃ record, findOpen st sid = some record ∧
      (parseBreaks record.breaks).any isActive = false ∧
      st2 = updateById st record.id
        (fun r => { r with breaks := .arr (parseBreaks record.breaks ++
                      [⟨some now, none, none⟩]) }) ∧
      t = now := by
  unfold startBreak at h
  cases hf : findOpen st sid with
  | none => rw [hf] at h; cases h
  | some record =>
    rw [hf] at h
    simp only at h
    by_cases hb : (parseBreaks record.breaks).any isActive
    · rw [if_pos hb] at h; cases h
    · rw [if_neg hb] at h
      injection h with h
      refine ⟨record, rfl, Bool.not_eq_true _ ▸ hb, ?_, ?_⟩
      · exact congrArg Prod.fst h.symm
      · exact congrArg Prod.snd h.symm

theorem endBreak_ok_shape {sid : String} {now : Nat} {st st2 : AttTable}
    {dur : Int} (h : endBreak sid now st = .ok (st2, dur)) :
    ∃ record i, findOpen st sid = some record ∧
      findIndex isActive (parseBreaks record.breaks) = some i ∧
      st2 = updateById st record.id
        (fun r => { r with breaks := .arr ((parseBreaks record.breaks).set i
          { ((parseBreaks record.breaks).get? i).getD ⟨none, none, none⟩ with
              end_ := some now }) }) ∧
      dur = Int.fdiv ((now : Int) -
        (((((parseBreaks record.breaks).get? i).getD
            ⟨none, none, none⟩).start.getD 0 : Nat) : Int)) 60000 := by
  unfold endBreak at h
  cases hf : findOpen st sid with
  | none => rw [hf] at h; cases h
  | some record =>
    rw [hf] at h
    simp only at h
    cases hi : findIndex isActive (parseBreaks record.breaks) with
    | none => rw [hi] at h; cases h
    | some i =>
      rw [hi] at h
      simp only at h
      injection h with h
      refine ⟨record, i, rfl, hi, ?_, ?_⟩
      · exact congrArg Prod.fst h.symm
      · exact congrArg Prod.snd h.symm

theorem step_preserves_exists {sid : String} {d : Nat} {st : AttTable} (op : Op)
    (h : ∃ r ∈ st, r.staff_id = sid ∧ r.date = d) :
    ∃ r ∈ step st op, r.staff_id = sid ∧ r.date = d := by
  have hupd : ∀ (i : Nat) (g : Attendance → Attendance),
      (∀ r, (g r).staff_id = r.staff_id ∧ (g r).date = r.date) →
      ∃ r ∈ updateById st i g, r.staff_id = sid ∧ r.date = d := by
    intro i g hg
    refine exists_mem_updateById (fun r hr => ?_) h
    exact ⟨(hg r).1.trans hr.1, (hg r).2.trans hr.2⟩
  cases op with
  | checkin sid2 d2 n =>
    simp only [step]
    cases hc : checkin sid2 d2 n st with
    | error e => exact h
    | ok st2 =>
      obtain ⟨-, rfl⟩ := checkin_ok_shape hc
      obtain ⟨r, hr, hP⟩ := h
      exact ⟨r, List.mem_append_left _ hr, hP⟩
  | checkout sid2 n =>
    simp only [step]
    cases hc : checkout sid2 n st with
    | error e => exact h
    | ok p =>
      obtain ⟨st2, flag⟩ := p
      obtain ⟨record, -, rfl, -⟩ := checkout_ok_shape hc
      exact hupd _ _ (fun r => ⟨rfl, rfl⟩)
  | startBreak sid2 n =>
    simp only [step]
    cases hc : startBreak sid2 n st with
    | error e => exact h
    | ok p =>
      obtain ⟨st2, t⟩ := p
      obtain ⟨record, -, -, rfl, -⟩ := startBreak_ok_shape hc
      exact hupd _ _ (fun r => ⟨rfl, rfl⟩)
  | endBreak sid2 n =>
    simp only [step]
    cases hc : endBreak sid2 n st with
    | error e => exact h
    | ok p =>
      obtain ⟨st2, dur⟩ := p
      obtain ⟨record, i, -, -, rfl, -⟩ := endBreak_ok_shape hc
      exact hupd _ _ (fun r => ⟨rfl, rfl⟩)

theorem run_preserves_exists {sid : String} {d : Nat} :
    ∀ (ops : List Op) (st0 : AttTable),
      (∃ r ∈ st0, r.staff_id = sid ∧ r.date = d) →
      ∃ r ∈ run st0 ops, r.staff_id = sid ∧ r.date = d := by
  intro ops
  induction ops with
  | nil => intro st0 h0; exact h0
  | cons op ops ih => intro st0 h0; exact ih _ (step_preserves_exists op h0)

/-! ## Claim theorems -/

/-- C4: the open-record lookup shared by CheckOut, StartBreak and EndBreak
(`SELECT * FROM attendance WHERE staff_id = ? AND check_out IS NULL ORDER BY
check_in DESC LIMIT 1`) selects, among all records for the given staffId
with `check_out IS NULL` regardless of date, one with the greatest check-in
time; it yields no record iff no open record exists for that staffId; each
of the three handlers answers NoOpenShift exactly when the lookup is empty;
and whenever the lookup finds a record — its date being unconstrained, in
particular an open shift from a prior calendar date — CheckOut succeeds. -/
theorem findOpen_lookup_spec (st : AttTable) (sid : String) :
    (findOpen st sid = none ↔
      ∀ r ∈ st, r.staff_id = sid → r.check_out ≠ none) ∧
    (∀ record, findOpen st sid = some record →
      record ∈ st ∧ record.staff_id = sid ∧ record.check_out = none ∧
        ∀ r ∈ st, r.staff_id = sid → r.check_out = none →
          r.check_in ≤ record.check_in) ∧
    (∀ now, checkout sid now st = .error .noOpenShift ↔
      findOpen st sid = none) ∧
    (∀ now, startBreak sid now st = .error .noOpenShift ↔
      findOpen st sid = none) ∧
    (∀ now, endBreak sid now st = .error .noOpenShift ↔
      findOpen st sid = none) ∧
    (∀ now record, findOpen st sid = some record →
      ∃ res, checkout sid now st = .ok res) := by
  refine ⟨findOpen_eq_none_iff, ?_, ?_, ?_, ?_, ?_⟩
  · intro record h
    exact findOpen_some_spec h
  · intro now
    cases hf : findOpen st sid with
    | none => simp [checkout, hf]
    | some record => simp [checkout, hf]
  · intro now
    cases hf : findOpen st sid with
    | none => simp [startBreak, hf]
    | some record =>
      by_cases hb : (parseBreaks record.breaks).any isActive <;>
        simp [startBreak, hf, hb]
  · intro now
    cases hf : findOpen st sid with
    | none => simp [endBreak, hf]
    | some record =>
      cases hi : findIndex isActive (parseBreaks record.breaks) <;>
        simp [endBreak, hf, hi]
  · intro now record h
    refine ⟨(updateById st record.id (fun r => { r with
        check_out := some now,
        breaks := .arr ((parseBreaks record.breaks).map (autoCloseEntry now)) }),
      (parseBreaks record.breaks).any isActive), ?_⟩
    unfold checkout
    rw [h]

/-- Witness for C4: a concrete table with a single open record, dated day 3,
looked up on behalf of staff S4. -/
theorem findOpen_lookup_spec_witness :
    (⟨1, "S4", 3, 50, none, StoredBreaks.nullVal⟩ : Attendance) ∈
        ([⟨1, "S4", 3, 50, none, StoredBreaks.nullVal⟩] : AttTable) ∧
      (⟨1, "S4", 3, 50, none, StoredBreaks.nullVal⟩ : Attendance).staff_id = "S4" ∧
      (⟨1, "S4", 3, 50, none, StoredBreaks.nullVal⟩ : Attendance).check_out = none ∧
      ∀ r ∈ ([⟨1, "S4", 3, 50, none, StoredBreaks.nullVal⟩] : AttTable),
        r.staff_id = "S4" → r.check_out = none →
          r.check_in ≤ (⟨1, "S4", 3, 50, none, StoredBreaks.nullVal⟩ : Attendance).check_in :=
  (findOpen_lookup_spec [⟨1, "S4", 3, 50, none, StoredBreaks.nullVal⟩] "S4").2.1
    ⟨1, "S4", 3, 50, none, StoredBreaks.nullVal⟩ rfl

/-- C3: if a record for (staffId, date) already exists — open or closed —
CheckIn fails with AlreadyCheckedIn and writes nothing; and after a
successful CheckIn, a later CheckIn for the same staffId and date fails no
matter which operations ran in between. -/
theorem checkin_daily_uniqueness (sid : String) (d : Nat) (st : AttTable) :
    (∀ t, (∃ r ∈ st, r.staff_id = sid ∧ r.date = d) →
      checkin sid d t st = .error .alreadyCheckedIn ∧
        step st (.checkin sid d t) = st) ∧
    (∀ t st2, checkin sid d t st = .ok st2 →
      ∀ ops t2, checkin sid d t2 (run st2 ops) = .error .alreadyCheckedIn) := by
  constructor
  · intro t h
    have he := checkin_error_of_exists (n := t) h
    exact ⟨he, by simp [step, he]⟩
  · intro t st2 hok ops t2
    obtain ⟨-, rfl⟩ := checkin_ok_shape hok
    have hex : ∃ r ∈ st ++ [(⟨maxId st + 1, sid, d, t, none,
        StoredBreaks.nullVal⟩ : Attendance)], r.staff_id = sid ∧ r.date = d :=
      ⟨_, List.mem_append_right _ (List.mem_singleton.mpr rfl), rfl, rfl⟩
    exact checkin_error_of_exists (run_preserves_exists ops _ hex)

/-- Witness for C3: S3 has a closed record for day 7, so a new CheckIn on
day 7 is rejected and writes nothing; and after a fresh CheckIn on day 7
followed by a CheckOut, a second CheckIn on day 7 is rejected. -/
theorem checkin_daily_uniqueness_witness :
    (checkin "S3" 7 99 [⟨1, "S3", 7, 5, some 6, StoredBreaks.nullVal⟩]
        = .error .alreadyCheckedIn ∧
      step [⟨1, "S3", 7, 5, some 6, StoredBreaks.nullVal⟩] (.checkin "S3" 7 99)
        = [⟨1, "S3", 7, 5, some 6, StoredBreaks.nullVal⟩]) ∧
    checkin "S3" 7 30 (run [⟨1, "S3", 7, 10, none, StoredBreaks.nullVal⟩]
        [.checkout "S3" 20]) = .error .alreadyCheckedIn :=
  ⟨(checkin_daily_uniqueness "S3" 7 _).1 99
      ⟨⟨1, "S3", 7, 5, some 6, StoredBreaks.nullVal⟩, by simp, rfl, rfl⟩,
    (checkin_daily_uniqueness "S3" 7 []).2 10
      [⟨1, "S3", 7, 10, none, StoredBreaks.nullVal⟩] rfl [.checkout "S3" 20] 30⟩

/-- C9: a successful CheckIn appends exactly one new record with
`check_in = now`, `check_out = NULL` and an empty breaks sequence (the
INSERT omits the breaks column, so the stored value is SQL NULL, which
every handler reads as the empty sequence). -/
theorem checkin_creates_fresh_record {sid : String} {d now : Nat}
    {st st2 : AttTable} (h : checkin sid d now st = .ok st2) :
    ∃ r, st2 = st ++ [r] ∧ r.staff_id = sid ∧ r.date = d ∧
      r.check_in = now ∧ r.check_out = none ∧ parseBreaks r.breaks = [] := by
  obtain ⟨-, rfl⟩ := checkin_ok_shape h
  exact ⟨_, rfl, rfl, rfl, rfl, rfl, rfl⟩

/-- Witness for C9: S9 checks in on day 2 at time 77 on an empty table. -/
theorem checkin_creates_fresh_record_witness :
    ∃ r, ([⟨1, "S9", 2, 77, none, StoredBreaks.nullVal⟩] : AttTable)
        = [] ++ [r] ∧ r.staff_id = "S9" ∧ r.date = 2 ∧
      r.check_in = 77 ∧ r.check_out = none ∧ parseBreaks r.breaks = [] :=
  @checkin_creates_fresh_record "S9" 2 77 []
    [⟨1, "S9", 2, 77, none, StoredBreaks.nullVal⟩] rfl

/-- C1 counterexample: CheckOut succeeds on an open record whose sole break
entry has no `start` field; the code's transform requires `brk.start &&
!brk.end` (server.js 445), so the entry keeps `end == null` even in the
closed record, contradicting the claim that every entry with `end == null`
is closed and that a closed record contains no such entry. -/
theorem checkout_autoclose_counterexample :
    ∃ st2 flag, checkout "S" 20
        [⟨1, "S", 0, 10, none, StoredBreaks.arr [⟨none, none, none⟩]⟩]
        = .ok (st2, flag) ∧
      ∃ r ∈ st2, r.check_out ≠ none ∧
        ∃ b ∈ parseBreaks r.breaks, b.end_ = none := by
  refine ⟨[⟨1, "S", 0, 10, some 20, StoredBreaks.arr [⟨none, none, none⟩]⟩],
    false, rfl,
    ⟨1, "S", 0, 10, some 20, StoredBreaks.arr [⟨none, none, none⟩]⟩,
    by simp, by simp, ⟨none, none, none⟩, by simp [parseBreaks], rfl⟩

/-- C1 (amended): for every record on which CheckOut succeeds, the persisted
breaks sequence is the input transformed entry-wise so that every entry
WITH A START and `end == null` has `end` set to the checkout time and
`auto_ended` set to true; all other entries — including start-less ones —
are unchanged; the closed record contains no entry that has a start but
`end == null`; and the response flag is true iff at least one entry was so
transformed. -/
theorem checkout_autoclose_spec {sid : String} {now : Nat} {st st2 : AttTable}
    {flag : Bool} (h : checkout sid now st = .ok (st2, flag)) :
    ∃ record bs2, findOpen st sid = some record ∧
      st2 = updateById st record.id
        (fun r => { r with check_out := some now, breaks := .arr bs2 }) ∧
      bs2.length = (parseBreaks record.breaks).length ∧
      (∀ i b b2, (parseBreaks record.breaks).get? i = some b →
        bs2.get? i = some b2 →
          ((b.start.isSome = true ∧ b.end_ = none) →
            b2 = ⟨b.start, some now, some true⟩) ∧
          (¬(b.start.isSome = true ∧ b.end_ = none) → b2 = b)) ∧
      (∀ b2 ∈ bs2, b2.start.isSome = true → b2.end_ ≠ none) ∧
      (flag = true ↔ ∃ b ∈ parseBreaks record.breaks,
        b.start.isSome = true ∧ b.end_ = none) := by
  obtain ⟨record, hf, rfl, hflag⟩ := checkout_ok_shape h
  refine ⟨record, (parseBreaks record.breaks).map (autoCloseEntry now), hf,
    rfl, List.length_map _ _, ?_, ?_, ?_⟩
  · intro i b b2 hb hb2
    rw [List.get?_map, hb] at hb2
    simp only [Option.map_some'] at hb2
    injection hb2 with hb2
    subst hb2
    constructor
    · rintro ⟨h1, h2⟩
      simp [autoCloseEntry, isActive, h1, h2]
    · intro hn
      simp only [autoCloseEntry, isActive]
      rw [if_neg]
      simp only [Bool.and_eq_true, Option.isNone_iff_eq_none]
      exact fun hc => hn ⟨hc.1, hc.2⟩
  · intro b2 hb2 hs
    obtain ⟨b, hb, rfl⟩ := List.mem_map.mp hb2
    by_cases ha : isActive b
    · simp [autoCloseEntry, ha]
    · simp only [autoCloseEntry, if_neg ha] at hs ⊢
      simp only [isActive, Bool.and_eq_true, Option.isNone_iff_eq_none] at ha
      intro he
      exact ha ⟨hs, he⟩
  · subst hflag
    rw [List.any_eq_true]
    constructor
    · rintro ⟨b, hb, hpb⟩
      simp only [isActive, Bool.and_eq_true, Option.isNone_iff_eq_none] at hpb
      exact ⟨b, hb, hpb.1, hpb.2⟩
    · rintro ⟨b, hb, h1, h2⟩
      exact ⟨b, hb, by simp [isActive, h1, h2]⟩

/-- Witness for the amended C1: W1 checks out at time 20 while a break
started at time 3 is still active; the persisted entry becomes
`{start: 3, end: 20, auto_ended: true}` and the flag is true. -/
theorem checkout_autoclose_spec_witness :
    ∃ record bs2, findOpen [⟨1, "W1", 0, 10, none,
        StoredBreaks.arr [⟨some 3, none, none⟩]⟩] "W1" = some record ∧
      ([⟨1, "W1", 0, 10, some 20,
          StoredBreaks.arr [⟨some 3, some 20, some true⟩]⟩] : AttTable)
        = updateById [⟨1, "W1", 0, 10, none,
            StoredBreaks.arr [⟨some 3, none, none⟩]⟩] record.id
          (fun r => { r with check_out := some 20, breaks := .arr bs2 }) ∧
      bs2.length = (parseBreaks record.breaks).length ∧
      (∀ i b b2, (parseBreaks record.breaks).get? i = some b →
        bs2.get? i = some b2 →
          ((b.start.isSome = true ∧ b.end_ = none) →
            b2 = ⟨b.start, some 20, some true⟩) ∧
          (¬(b.start.isSome = true ∧ b.end_ = none) → b2 = b)) ∧
      (∀ b2 ∈ bs2, b2.start.isSome = true → b2.end_ ≠ none) ∧
      (true = true ↔ ∃ b ∈ parseBreaks record.breaks,
        b.start.isSome = true ∧ b.end_ = none) :=
  @checkout_autoclose_spec "W1" 20
    [⟨1, "W1", 0, 10, none, StoredBreaks.arr [⟨some 3, none, none⟩]⟩]
    [⟨1, "W1", 0, 10, some 20, StoredBreaks.arr [⟨some 3, some 20, some true⟩]⟩]
    true rfl

/-- C5: scenario CheckIn → StartBreak → CheckOut (no EndBreak) for fresh
staff S2: checkout succeeds with the auto-ended flag true, and the final
record's sole break entry has `auto_ended = true` and `end` equal to the
record's checkout timestamp (3000). -/
theorem scenario_break_autoclosed_on_checkout :
    checkin "S2" 0 1000 []
      = .ok [⟨1, "S2", 0, 1000, none, StoredBreaks.nullVal⟩] ∧
    startBreak "S2" 2000 [⟨1, "S2", 0, 1000, none, StoredBreaks.nullVal⟩]
      = .ok ([⟨1, "S2", 0, 1000, none,
          StoredBreaks.arr [⟨some 2000, none, none⟩]⟩], 2000) ∧
    checkout "S2" 3000 [⟨1, "S2", 0, 1000, none,
        StoredBreaks.arr [⟨some 2000, none, none⟩]⟩]
      = .ok ([⟨1, "S2", 0, 1000, some 3000,
          StoredBreaks.arr [⟨some 2000, some 3000, some true⟩]⟩], true) :=
  ⟨rfl, rfl, rfl⟩

/-- C6 counterexample: the open record's breaks hold one start-less entry
with `end == null`, yet StartBreak does not fail with AlreadyOnBreak — the
code's active-break test requires `b.start && !b.end` (server.js 503) — it
succeeds and appends a second entry. -/
theorem startBreak_nostart_counterexample :
    (∃ b ∈ parseBreaks (StoredBreaks.arr [⟨none, none, none⟩]),
      b.end_ = none) ∧
    startBreak "S6" 30
        [⟨1, "S6", 0, 10, none, StoredBreaks.arr [⟨none, none, none⟩]⟩]
      = .ok ([⟨1, "S6", 0, 10, none,
          StoredBreaks.arr [⟨none, none, none⟩, ⟨some 30, none, none⟩]⟩], 30) :=
  ⟨⟨⟨none, none, none⟩, by simp [parseBreaks], rfl⟩, rfl⟩

/-- C6 (amended): given an open shift, StartBreak fails with AlreadyOnBreak
iff the record's breaks contain an entry WITH A START and `end == null`; a
failed StartBreak leaves the table unchanged; and when no such entry
exists, StartBreak appends exactly one `{start: now}` entry (no end, no
auto_ended field) to the end of the parsed breaks. -/
theorem startBreak_spec {sid : String} {now : Nat} {st : AttTable}
    {record : Attendance} (h : findOpen st sid = some record) :
    (startBreak sid now st = .error .alreadyOnBreak ↔
      ∃ b ∈ parseBreaks record.breaks,
        b.start.isSome = true ∧ b.end_ = none) ∧
    (startBreak sid now st = .error .alreadyOnBreak →
      step st (.startBreak sid now) = st) ∧
    ((∀ b ∈ parseBreaks record.breaks,
        ¬(b.start.isSome = true ∧ b.end_ = none)) →
      startBreak sid now st = .ok (updateById st record.id
        (fun r => { r with breaks := .arr (parseBreaks record.breaks ++
          [⟨some now, none, none⟩]) }), now)) := by
  have hact : (parseBreaks record.breaks).any isActive = true ↔
      ∃ b ∈ parseBreaks record.breaks,
        b.start.isSome = true ∧ b.end_ = none := by
    rw [List.any_eq_true]
    constructor
    · rintro ⟨b, hb, hpb⟩
      simp only [isActive, Bool.and_eq_true, Option.isNone_iff_eq_none] at hpb
      exact ⟨b, hb, hpb⟩
    · rintro ⟨b, hb, h1, h2⟩
      exact ⟨b, hb, by simp [isActive, h1, h2]⟩
  by_cases hb : (parseBreaks record.breaks).any isActive
  · have he : startBreak sid now st = .error .alreadyOnBreak := by
      unfold startBreak
      rw [h]
      simp [hb]
    refine ⟨iff_of_true he (hact.mp hb), fun _ => by simp [step, he], ?_⟩
    · intro hall
      obtain ⟨b, hbm, h1, h2⟩ := hact.mp hb
      exact absurd ⟨h1, h2⟩ (hall b hbm)
  · have he : startBreak sid now st = .ok (updateById st record.id
        (fun r => { r with breaks := .arr (parseBreaks record.breaks ++
          [⟨some now, none, none⟩]) }), now) := by
      unfold startBreak
      rw [h]
      simp [hb]
    refine ⟨iff_of_false (fun hcon => ?_) (fun hex => hb (hact.mpr hex)),
      fun hcon => ?_, fun _ => he⟩
    · rw [he] at hcon
      exact absurd hcon (by simp)
    · rw [he] at hcon
      exact absurd hcon (by simp)

/-- Witness for the amended C6: W6 has an active break started at time 5;
StartBreak at time 40 is rejected with AlreadyOnBreak and writes nothing. -/
theorem startBreak_spec_witness :
    startBreak "W6" 40 [⟨1, "W6", 0, 10, none,
        StoredBreaks.arr [⟨some 5, none, none⟩]⟩] = .error .alreadyOnBreak ∧
    step [⟨1, "W6", 0, 10, none, StoredBreaks.arr [⟨some 5, none, none⟩]⟩]
        (.startBreak "W6" 40)
      = [⟨1, "W6", 0, 10, none, StoredBreaks.arr [⟨some 5, none, none⟩]⟩] :=
  have hs := @startBreak_spec "W6" 40
    [⟨1, "W6", 0, 10, none, StoredBreaks.arr [⟨some 5, none, none⟩]⟩]
    ⟨1, "W6", 0, 10, none, StoredBreaks.arr [⟨some 5, none, none⟩]⟩ rfl
  have herr : startBreak "W6" 40 [⟨1, "W6", 0, 10, none,
      StoredBreaks.arr [⟨some 5, none, none⟩]⟩] = .error .alreadyOnBreak :=
    hs.1.mpr ⟨⟨some 5, none, none⟩, by simp [parseBreaks], rfl, rfl⟩
  ⟨herr, hs.2.1 herr⟩

/-- C7 counterexample: the open record's breaks hold exactly one entry with
`end == null`, but the entry has no `start`, so EndBreak fails with
NoActiveBreak (the code's findIndex requires `b.start && !b.end`,
server.js 550) instead of setting that entry's end. -/
theorem endBreak_nostart_counterexample :
    (parseBreaks (StoredBreaks.arr [⟨none, none, none⟩])).countP
        (fun b => b.end_.isNone) = 1 ∧
    endBreak "S7" 30 [⟨1, "S7", 0, 10, none,
        StoredBreaks.arr [⟨none, none, none⟩]⟩] = .error .noActiveBreak :=
  ⟨rfl, rfl⟩

/-- C7 (amended): when an open shift exists whose breaks contain exactly
one entry WITH A START and `end == null` (at position i, started at s),
EndBreak sets that entry's end to now, leaves every other entry unchanged,
and reports `durationMinutes = floor((now - s) / 60000)`; for a break
started at s and ended at s + 5 minutes the reported duration is 5. -/
theorem endBreak_spec {sid : String} {now : Nat} {st : AttTable}
    {record : Attendance} {i : Nat} {b : BreakEntry} {s : Nat}
    (hfind : findOpen st sid = some record)
    (hget : (parseBreaks record.breaks).get? i = some b)
    (hstart : b.start = some s) (hend : b.end_ = none)
    (huniq : ∀ j b2, (parseBreaks record.breaks).get? j = some b2 →
      b2.start.isSome = true → b2.end_ = none → j = i) :
    endBreak sid now st = .ok (updateById st record.id
        (fun r => { r with breaks := .arr ((parseBreaks record.breaks).set i
          ⟨some s, some now, b.auto_ended⟩) }),
      Int.fdiv ((now : Int) - (s : Int)) 60000) ∧
    (∀ j b2, j ≠ i → (parseBreaks record.breaks).get? j = some b2 →
      ((parseBreaks record.breaks).set i
        ⟨some s, some now, b.auto_ended⟩).get? j = some b2) ∧
    (now = s + 300000 → Int.fdiv ((now : Int) - (s : Int)) 60000 = 5) := by
  have hp : isActive b = true := by simp [isActive, hstart, hend]
  have huniq2 : ∀ j b2, (parseBreaks record.breaks).get? j = some b2 →
      isActive b2 = true → j = i := by
    intro j b2 hj hb2
    simp only [isActive, Bool.and_eq_true, Option.isNone_iff_eq_none] at hb2
    exact huniq j b2 hj hb2.1 hb2.2
  have hidx := findIndex_eq_some_of_unique hget hp huniq2
  refine ⟨?_, ?_, ?_⟩
  · unfold endBreak
    rw [hfind]
    simp only [hidx]
    rw [hget]
    simp [hstart]
  · intro j b2 hj hget2
    rw [List.get?_set_ne _ _ (Ne.symm hj)]
    exact hget2
  · intro h5
    subst h5
    have hsub : ((s + 300000 : Nat) : Int) - (s : Int) = 300000 := by
      push_cast
      ring
    rw [hsub]
    decide

/-- Witness for the amended C7: W7's sole break started at time 1000 is
ended at time 301000 (five minutes later); the reported duration is 5. -/
theorem endBreak_spec_witness :
    (endBreak "W7" 301000 [⟨1, "W7", 0, 10, none,
        StoredBreaks.arr [⟨some 1000, none, none⟩]⟩]
      = .ok (updateById [⟨1, "W7", 0, 10, none,
            StoredBreaks.arr [⟨some 1000, none, none⟩]⟩] 1
          (fun r =>
            { r with breaks := .arr ([(⟨some 1000, none, none⟩ : BreakEntry)].set 0
                        ⟨some 1000, some 301000, none⟩) }),
        Int.fdiv ((301000 : Int) - (1000 : Int)) 60000)) ∧
    (∀ j b2, j ≠ 0 →
      [(⟨some 1000, none, none⟩ : BreakEntry)].get? j = some b2 →
      ([(⟨some 1000, none, none⟩ : BreakEntry)].set 0
        ⟨some 1000, some 301000, none⟩).get? j = some b2) ∧
    ((301000 : Nat) = 1000 + 300000 →
      Int.fdiv ((301000 : Int) - (1000 : Int)) 60000 = 5) :=
  @endBreak_spec "W7" 301000
    [⟨1, "W7", 0, 10, none, StoredBreaks.arr [⟨some 1000, none, none⟩]⟩]
    ⟨1, "W7", 0, 10, none, StoredBreaks.arr [⟨some 1000, none, none⟩]⟩
    0 ⟨some 1000, none, none⟩ 1000 rfl rfl rfl rfl
    (by
      intro j b2 hj hs he
      cases j with
      | zero => rfl
      | succ j => simp [List.get?] at hj)

/-- C8: for an open record whose persisted breaks value is missing (NULL),
the empty string, an unparseable string, or JSON that is not an array, the
three handlers treat the breaks sequence as empty and proceed exactly as
they would on an empty array: CheckOut succeeds with flag false and
persists an empty array, StartBreak succeeds and persists just the new
entry, and EndBreak reports NoActiveBreak — identical to its behaviour on
a genuinely empty sequence, not a failure caused by the malformed value. -/
theorem malformed_breaks_tolerated {m : StoredBreaks}
    (hm : malformedStored m = true) {st : AttTable} {sid : String}
    {record : Attendance} (hfind : findOpen st sid = some record)
    (hbr : record.breaks = m) (now : Nat) :
    parseBreaks record.breaks = [] ∧
    checkout sid now st = .ok (updateById st record.id
      (fun r => { r with check_out := some now, breaks := .arr [] }), false) ∧
    startBreak sid now st = .ok (updateById st record.id
      (fun r => { r with breaks := .arr [⟨some now, none, none⟩] }), now) ∧
    endBreak sid now st = .error .noActiveBreak := by
  have hp : parseBreaks record.breaks = [] := by
    rw [hbr]
    cases m with
    | arr l => cases hm
    | nullVal => rfl
    | emptyStr => rfl
    | badJson s => rfl
    | nonArray => rfl
  refine ⟨hp, ?_, ?_, ?_⟩
  · unfold checkout
    rw [hfind]
    simp [hp]
  · unfold startBreak
    rw [hfind]
    simp [hp]
  · unfold endBreak
    rw [hfind]
    simp [hp, findIndex]

/-- Witness for C8: W8's open record stores an unparseable breaks string;
all three handlers behave as on an empty breaks sequence. -/
theorem malformed_breaks_tolerated_witness :
    parseBreaks (StoredBreaks.badJson "oops") = [] ∧
    checkout "W8" 50 [⟨1, "W8", 0, 10, none, StoredBreaks.badJson "oops"⟩]
      = .ok (updateById [⟨1, "W8", 0, 10, none, StoredBreaks.badJson "oops"⟩] 1
          (fun r => { r with check_out := some 50, breaks := .arr [] }),
        false) ∧
    startBreak "W8" 50 [⟨1, "W8", 0, 10, none, StoredBreaks.badJson "oops"⟩]
      = .ok (updateById [⟨1, "W8", 0, 10, none, StoredBreaks.badJson "oops"⟩] 1
          (fun r => { r with breaks := .arr [⟨some 50, none, none⟩] }), 50) ∧
    endBreak "W8" 50 [⟨1, "W8", 0, 10, none, StoredBreaks.badJson "oops"⟩]
      = .error .noActiveBreak :=
  @malformed_breaks_tolerated (StoredBreaks.badJson "oops") rfl
    [⟨1, "W8", 0, 10, none, StoredBreaks.badJson "oops"⟩] "W8"
    ⟨1, "W8", 0, 10, none, StoredBreaks.badJson "oops"⟩ rfl rfl 50

/-- C2 counterexample: starting from an empty table, CheckIn on day 0 and
CheckIn on day 1 (no CheckOut between) both succeed — the daily-uniqueness
guard is scoped to the request's date — leaving TWO records with
`check_out == null` for staff S. -/
theorem at_most_one_open_counterexample :
    countOpen "S" (run [] [.checkin "S" 0 10, .checkin "S" 1 20]) = 2 ∧
    ¬ countOpen "S" (run [] [.checkin "S" 0 10, .checkin "S" 1 20]) ≤ 1 := by
  decide

theorem forall_mem_updateById {st : AttTable} {i : Nat}
    {g : Attendance → Attendance} {P : Attendance → Prop}
    (hg : ∀ r, P r → P (g r)) (h : ∀ r ∈ st, P r) :
    ∀ r ∈ updateById st i g, P r := by
  intro r2 hr2
  obtain ⟨r, hr, heq⟩ := mem_updateById.mp hr2
  subst heq
  by_cases hid : r.id == i
  · rw [if_pos hid]
    exact hg r (h r hr)
  · rw [if_neg hid]
    exact h r hr

theorem step_same_day_invariant {sid : String} {d : Nat} {st : AttTable}
    (hinv : st.countP (fun r => r.staff_id == sid) ≤ 1 ∧
      ∀ r ∈ st, r.staff_id = sid → r.date = d)
    {op : Op} (hop : (∃ n, op = Op.checkin sid d n) ∨
      (∃ n, op = Op.checkout sid n)) :
    (step st op).countP (fun r => r.staff_id == sid) ≤ 1 ∧
      ∀ r ∈ step st op, r.staff_id = sid → r.date = d := by
  obtain ⟨hcount, hdate⟩ := hinv
  rcases hop with ⟨n, rfl⟩ | ⟨n, rfl⟩
  · simp only [step]
    cases hc : checkin sid d n st with
    | error e => exact ⟨hcount, hdate⟩
    | ok st2 =>
      obtain ⟨hany, rfl⟩ := checkin_ok_shape hc
      have hnone : st.countP (fun r => r.staff_id == sid) = 0 := by
        rw [List.countP_eq_zero]
        intro r hr hcontra
        have hsid2 : r.staff_id = sid := by simpa using hcontra
        have hd : r.date = d := hdate r hr hsid2
        have hany2 : st.any (fun r => r.staff_id == sid && r.date == d)
            = true := by
          rw [List.any_eq_true]
          exact ⟨r, hr, by simp [hsid2, hd]⟩
        rw [hany] at hany2
        cases hany2
      constructor
      · rw [List.countP_append, hnone]
        simp [List.countP, List.countP.go]
      · intro r hr hsid2
        rcases List.mem_append.mp hr with hr | hr
        · exact hdate r hr hsid2
        · rw [List.mem_singleton.mp hr]
  · simp only [step]
    cases hc : checkout sid n st with
    | error e => exact ⟨hcount, hdate⟩
    | ok p =>
      obtain ⟨st2, flag⟩ := p
      obtain ⟨record, -, rfl, -⟩ := checkout_ok_shape hc
      refine ⟨?_, ?_⟩
      · exact le_trans (Nat.le_of_eq (countP_updateById st record.id _
          (fun r => r.staff_id == sid) (fun r => rfl))) hcount
      · exact forall_mem_updateById (fun r hp hs => hp hs) hdate

/-- C2 (amended): for every staffId and every sequence of CheckIn and
CheckOut operations in which all CheckIns carry the SAME calendar date
(starting from a state with no records for that staffId), at most one
record with `check_out == null` exists for that staffId at any point
between operations.  Without the same-date restriction the claim fails:
CheckIns on two dates leave two open records (see the counterexample). -/
theorem at_most_one_open_same_day {sid : String} {d : Nat} {st0 : AttTable}
    (h0 : ∀ r ∈ st0, r.staff_id ≠ sid) {ops : List Op}
    (hops : ∀ op ∈ ops, (∃ n, op = Op.checkin sid d n) ∨
      (∃ n, op = Op.checkout sid n)) :
    ∀ pre suf, ops = pre ++ suf → countOpen sid (run st0 pre) ≤ 1 := by
  have key : ∀ (pre : List Op) (st : AttTable),
      (∀ op ∈ pre, (∃ n, op = Op.checkin sid d n) ∨
        (∃ n, op = Op.checkout sid n)) →
      (st.countP (fun r => r.staff_id == sid) ≤ 1 ∧
        ∀ r ∈ st, r.staff_id = sid → r.date = d) →
      (run st pre).countP (fun r => r.staff_id == sid) ≤ 1 ∧
        ∀ r ∈ run st pre, r.staff_id = sid → r.date = d := by
    intro pre
    induction pre with
    | nil => intro st _ hinv; exact hinv
    | cons op pre ih =>
      intro st hall hinv
      exact ih _ (fun o ho => hall o (List.mem_cons_of_mem _ ho))
        (step_same_day_invariant hinv (hall op (List.mem_cons_self _ _)))
  intro pre suf heq
  have hpre : ∀ op ∈ pre, (∃ n, op = Op.checkin sid d n) ∨
      (∃ n, op = Op.checkout sid n) :=
    fun o ho => hops o (heq ▸ List.mem_append_left suf ho)
  have hinv0 : st0.countP (fun r => r.staff_id == sid) ≤ 1 ∧
      ∀ r ∈ st0, r.staff_id = sid → r.date = d := by
    constructor
    · have hz : st0.countP (fun r => r.staff_id == sid) = 0 := by
        rw [List.countP_eq_zero]
        intro r hr hcon
        exact h0 r hr (by simpa using hcon)
      omega
    · intro r hr hsid2
      exact absurd hsid2 (h0 r hr)
  have hk := key pre st0 hpre hinv0
  rw [countOpen]
  refine le_trans (List.countP_mono_left ?_) hk.1
  intro r _ hr
  simp only [Bool.and_eq_true] at hr
  exact hr.1

/-- Witness for the amended C2: empty initial table, staff S on day 0:
CheckIn, CheckOut, then a CheckIn retry; after every prefix at most one
open record exists. -/
theorem at_most_one_open_same_day_witness :
    countOpen "S" (run []
      [Op.checkin "S" 0 10, Op.checkout "S" 20, Op.checkin "S" 0 30]) ≤ 1 :=
  @at_most_one_open_same_day "S" 0 [] (by simp)
    [Op.checkin "S" 0 10, Op.checkout "S" 20, Op.checkin "S" 0 30]
    (by
      intro op hop
      simp only [List.mem_cons, List.mem_singleton, List.not_mem_nil,
        or_false] at hop
      rcases hop with rfl | rfl | rfl
      · exact Or.inl ⟨10, rfl⟩
      · exact Or.inr ⟨20, rfl⟩
      · exact Or.inl ⟨30, rfl⟩)
    [Op.checkin "S" 0 10, Op.checkout "S" 20, Op.checkin "S" 0 30] [] rfl

theorem updateById_frame_spec {st : AttTable} {record : Attendance}
    {g : Attendance → Attendance}
    (hnodup : (st.map Attendance.id).Nodup) (hrec : record ∈ st)
    (hg : ∀ r, (g r).id = r.id ∧ (g r).staff_id = r.staff_id ∧
      (g r).date = r.date ∧ (g r).check_in = r.check_in ∧
      (g r).check_out = r.check_out) :
    (updateById st record.id g).length = st.length ∧
    (∀ i r r2, st.get? i = some r →
      (updateById st record.id g).get? i = some r2 →
        (r.id = record.id → r2.id = r.id ∧ r2.staff_id = r.staff_id ∧
          r2.date = r.date ∧ r2.check_in = r.check_in ∧
          r2.check_out = r.check_out) ∧
        (r.id ≠ record.id → r2 = r)) ∧
    (∀ i r r2, st.get? i = some r →
      (updateById st record.id g).get? i = some r2 →
        r.staff_id ≠ record.staff_id → r2 = r) := by
  have hframe : ∀ i r r2, st.get? i = some r →
      (updateById st record.id g).get? i = some r2 →
        (r.id = record.id → r2.id = r.id ∧ r2.staff_id = r.staff_id ∧
          r2.date = r.date ∧ r2.check_in = r.check_in ∧
          r2.check_out = r.check_out) ∧
        (r.id ≠ record.id → r2 = r) := by
    intro i r r2 hi hi2
    rw [get?_updateById, hi] at hi2
    simp only [Option.map_some'] at hi2
    injection hi2 with hi2
    subst hi2
    constructor
    · intro hid
      rw [if_pos (show (r.id == record.id) = true from by simp [hid])]
      exact hg r
    · intro hid
      rw [if_neg (show ¬(r.id == record.id) = true from by simp [hid])]
  refine ⟨length_updateById st record.id g, hframe, ?_⟩
  intro i r r2 hi hi2 hne
  obtain ⟨k, hk⟩ := List.mem_iff_get?.mp hrec
  have hid : r.id ≠ record.id := by
    intro hcontra
    have h1 : (st.map Attendance.id).get? i = some record.id := by
      rw [List.get?_map, hi, Option.map_some', hcontra]
    have h2 : (st.map Attendance.id).get? k = some record.id := by
      rw [List.get?_map, hk, Option.map_some']
    have hik := nodup_get?_inj hnodup h1 h2
    rw [hik, hk] at hi
    injection hi with hi
    exact hne (congrArg Attendance.staff_id hi.symm)
  exact (hframe i r r2 hi hi2).2 hid

/-- C10: when StartBreak or EndBreak succeeds (on a table with unique
record ids), only the breaks field of the located record changes —
its id, staff_id, date, check_in and check_out are unchanged — every
record with a different id is untouched, and in particular every record
belonging to another staffId is unchanged. -/
theorem break_ops_frame {sid : String} {now : Nat} {st : AttTable}
    (hnodup : (st.map Attendance.id).Nodup) :
    (∀ st2 t, startBreak sid now st = .ok (st2, t) →
      ∃ record, findOpen st sid = some record ∧ record.staff_id = sid ∧
        st2.length = st.length ∧
        (∀ i r r2, st.get? i = some r → st2.get? i = some r2 →
          (r.id = record.id → r2.id = r.id ∧ r2.staff_id = r.staff_id ∧
            r2.date = r.date ∧ r2.check_in = r.check_in ∧
            r2.check_out = r.check_out) ∧
          (r.id ≠ record.id → r2 = r)) ∧
        (∀ i r r2, st.get? i = some r → st2.get? i = some r2 →
          r.staff_id ≠ sid → r2 = r)) ∧
    (∀ st2 dur, endBreak sid now st = .ok (st2, dur) →
      ∃ record, findOpen st sid = some record ∧ record.staff_id = sid ∧
        st2.length = st.length ∧
        (∀ i r r2, st.get? i = some r → st2.get? i = some r2 →
          (r.id = record.id → r2.id = r.id ∧ r2.staff_id = r.staff_id ∧
            r2.date = r.date ∧ r2.check_in = r.check_in ∧
            r2.check_out = r.check_out) ∧
          (r.id ≠ record.id → r2 = r)) ∧
        (∀ i r r2, st.get? i = some r → st2.get? i = some r2 →
          r.staff_id ≠ sid → r2 = r)) := by
  constructor
  · intro st2 t hok
    obtain ⟨record, hfind, -, rfl, -⟩ := startBreak_ok_shape hok
    obtain ⟨hmem, hsid, -, -⟩ := findOpen_some_spec hfind
    have hspec := updateById_frame_spec hnodup hmem
      (g := fun r => { r with breaks := .arr (parseBreaks record.breaks ++
        [⟨some now, none, none⟩]) }) (fun r => ⟨rfl, rfl, rfl, rfl, rfl⟩)
    refine ⟨record, hfind, hsid, hspec.1, hspec.2.1, ?_⟩
    intro i r r2 hi hi2 hne
    exact hspec.2.2 i r r2 hi hi2 (hsid ▸ hne)
  · intro st2 dur hok
    obtain ⟨record, j, hfind, -, rfl, -⟩ := endBreak_ok_shape hok
    obtain ⟨hmem, hsid, -, -⟩ := findOpen_some_spec hfind
    have hspec := updateById_frame_spec hnodup hmem
      (g := fun r => { r with breaks := .arr ((parseBreaks record.breaks).set j
        { ((parseBreaks record.breaks).get? j).getD ⟨none, none, none⟩ with
            end_ := some now }) }) (fun r => ⟨rfl, rfl, rfl, rfl, rfl⟩)
    refine ⟨record, hfind, hsid, hspec.1, hspec.2.1, ?_⟩
    intro i r r2 hi hi2 hne
    exact hspec.2.2 i r r2 hi hi2 (hsid ▸ hne)

/-- Witness for C10: a two-staff table; WA starts a break at time 30; WB's
record is untouched and WA's record changes only in its breaks field. -/
theorem break_ops_frame_witness :
    ∃ record, findOpen [⟨1, "WA", 0, 10, none, StoredBreaks.nullVal⟩,
        ⟨2, "WB", 0, 11, none, StoredBreaks.nullVal⟩] "WA" = some record ∧
      record.staff_id = "WA" ∧
      ([⟨1, "WA", 0, 10, none, StoredBreaks.arr [⟨some 30, none, none⟩]⟩,
        ⟨2, "WB", 0, 11, none, StoredBreaks.nullVal⟩] : AttTable).length
        = ([⟨1, "WA", 0, 10, none, StoredBreaks.nullVal⟩,
            ⟨2, "WB", 0, 11, none, StoredBreaks.nullVal⟩] : AttTable).length ∧
      (∀ i r r2,
        ([⟨1, "WA", 0, 10, none, StoredBreaks.nullVal⟩,
          ⟨2, "WB", 0, 11, none, StoredBreaks.nullVal⟩] : AttTable).get? i
            = some r →
        ([⟨1, "WA", 0, 10, none, StoredBreaks.arr [⟨some 30, none, none⟩]⟩,
          ⟨2, "WB", 0, 11, none, StoredBreaks.nullVal⟩] : AttTable).get? i
            = some r2 →
          (r.id = record.id → r2.id = r.id ∧ r2.staff_id = r.staff_id ∧
            r2.date = r.date ∧ r2.check_in = r.check_in ∧
            r2.check_out = r.check_out) ∧
          (r.id ≠ record.id → r2 = r)) ∧
      (∀ i r r2,
        ([⟨1, "WA", 0, 10, none, StoredBreaks.nullVal⟩,
          ⟨2, "WB", 0, 11, none, StoredBreaks.nullVal⟩] : AttTable).get? i
            = some r →
        ([⟨1, "WA", 0, 10, none, StoredBreaks.arr [⟨some 30, none, none⟩]⟩,
          ⟨2, "WB", 0, 11, none, StoredBreaks.nullVal⟩] : AttTable).get? i
            = some r2 →
          r.staff_id ≠ "WA" → r2 = r) :=
  (@break_ops_frame "WA" 30 [⟨1, "WA", 0, 10, none, StoredBreaks.nullVal⟩,
      ⟨2, "WB", 0, 11, none, StoredBreaks.nullVal⟩] (by simp)).1
    [⟨1, "WA", 0, 10, none, StoredBreaks.arr [⟨some 30, none, none⟩]⟩,
      ⟨2, "WB", 0, 11, none, StoredBreaks.nullVal⟩] 30 rfl

end QRAtt
